import Mathlib

/-!
Shallow embedding of `src/avr_misc_util.c` (AVR8 utility routines).

Machine integers are modelled as `Nat` with explicit reduction modulo
`2^32` (`uint32_t`), `2^16` (`uint16_t`) and `2^8` (`uint8_t`) exactly at
the points where the C code can wrap or truncate.  The compile-time
constant `F_CPU` is not part of the repository (the consuming build must
define it), so every function takes it as an explicit first argument
`fcpu`; theorems quantify over it.  Signed return values (`int8_t`,
`int16_t`) are modelled as `Int`.  The `uint16_t *timer_ticks` out
parameter of `calc_presc_CSbits` is modelled as an `Option Nat` in the
result: `some v` means the pointer was written with `v`, `none` means the
function returned without writing through the pointer.
-/

/-- Modulus of `uint32_t` arithmetic. -/
def U32 : Nat := 4294967296

/-- Modulus of `uint16_t` arithmetic. -/
def U16 : Nat := 65536

/-- Conversion of a `uint16_t` bit pattern to `int16_t` (as in the casts
`(int16_t)temp` in the source), two's complement. -/
def toInt16 (n : Nat) : Int :=
  if n % U16 < 32768 then ((n % U16 : Nat) : Int) else ((n % U16 : Nat) : Int) - 65536

/-- The `prescalers` table local to `calc_presc_CSbits`:
`{1,8,64,256,1024,1,8,32,64,128,256,1024}`; out-of-range reads do not
occur in the source (indices stay below 12). -/
def prescalers (i : Nat) : Nat :=
  [1, 8, 64, 256, 1024, 1, 8, 32, 64, 128, 256, 1024].getD i 0

/-- The `switch(timer_id)` of `calc_presc_CSbits`: for a recognized timer
id (enum values `AVR_TIMER0..AVR_TIMER5` are `0..5`) it yields
`(prescaler_start, prescaler_end, timer_max)` as set by the switch arms;
for any other value the `default` arm is taken (modelled as `none`,
the function returns `-1`). -/
def timerParams (timer_id : Nat) : Option (Nat × Nat × Nat) :=
  if timer_id = 0 then some (0, 5, 255)
  else if timer_id = 1 ∨ timer_id = 3 ∨ timer_id = 4 ∨ timer_id = 5 then some (0, 5, 65535)
  else if timer_id = 2 then some (5, 12, 255)
  else none

/-- One evaluation of `val=(temp/prescalers[counter])-1;` in `uint32_t`
arithmetic: when `temp / prescalers i = 0` the subtraction wraps to
`2^32 - 1`. -/
def prescRawVal (temp i : Nat) : Nat :=
  (temp / prescalers i + (U32 - 1)) % U32

/-- The candidate tick value of `calc_presc_CSbits` for prescaler index
`i`, with `temp = F_CPU / freq` as in the source. -/
def prescVal (fcpu freq i : Nat) : Nat :=
  prescRawVal (fcpu / freq) i

/-- The `do { val=...; counter++; } while(val>timer_max && counter<prescaler_end);`
loop of `calc_presc_CSbits`.  `fuel` is the number of loop iterations the
guard `counter < prescaler_end` still allows beyond the current one
(initially `prescaler_end - prescaler_start - 1`), so the recursion is
structural; the returned pair is the final `(val, counter)` (with
`counter` already post-incremented, as in the source). -/
def prescLoopAux (temp mx : Nat) : Nat → Nat → Nat × Nat
  | 0, counter => (prescRawVal temp counter, counter + 1)
  | fuel + 1, counter =>
    if mx < prescRawVal temp counter then prescLoopAux temp mx fuel (counter + 1)
    else (prescRawVal temp counter, counter + 1)

/-- The tail of `calc_presc_CSbits` after the switch: the search loop,
the `val>timer_max` failure check, the (dead) `counter==0` fix-up, the
`uint16_t` store `*timer_ticks=val` and the return
`(int8_t)(counter-prescaler_start)`. -/
def calcPrescCore (temp ps pe mx : Nat) : Int × Option Nat :=
  let r := prescLoopAux temp mx (pe - ps - 1) ps
  if mx < r.1 then (-1, none)
  else (Int.ofNat ((if r.2 = 0 then 1 else r.2) - ps), some (r.1 % U16))

/-- Embedding of `calc_presc_CSbits(uint32_t freq, AVR_Timers timer_id,
uint16_t *timer_ticks)`.  The result is the `int8_t` return value paired
with the out-parameter effect (`some ticks` when `*timer_ticks` is
written, `none` when the function returns without writing). -/
def calc_presc_CSbits (fcpu freq timer_id : Nat) : Int × Option Nat :=
  if freq = 0 then (-1, none)
  else
    match timerParams timer_id with
    | none => (-1, none)
    | some (ps, pe, mx) => calcPrescCore (fcpu / freq) ps pe mx

/-- The UART `prescaler` local: 16, or 8 when `is_U2X_set`. -/
def uartPresc (is_U2X_set : Bool) : Nat :=
  if is_U2X_set then 8 else 16

/-- The `uint16_t temp=(F_CPU/(baudrate*prescaler))-1;` line of
`calc_uart_UBRRn`: the multiplication and the decrement are `uint32_t`
operations (the decrement wraps when the quotient is 0), and the store
into the `uint16_t` local truncates modulo `2^16`. -/
def uartTemp0 (fcpu b p : Nat) : Nat :=
  ((fcpu / ((b * p) % U32) + (U32 - 1)) % U32) % U16

/-- The `check_baudrate=F_CPU/(prescaler*(temp+1));` line: with
`temp ≤ 65535` and `prescaler ≤ 16` the product `prescaler*(temp+1)`
stays far below `2^31`, so no reduction is needed. -/
def uartCheck (fcpu p t : Nat) : Nat :=
  fcpu / (p * (t + 1))

/-- The `uint32_t` subtraction `check_baudrate-baudrate`. -/
def sub32 (c b : Nat) : Nat :=
  (c + (U32 - b % U32)) % U32

/-- Absolute value of a `uint32_t` bit pattern read as `int32_t`, stored
back into a `uint32_t` (the `abs((int32_t)(...))` idiom of the source);
`absI32 (2^31) = 2^31`, matching the two's-complement round trip. -/
def absI32 (d : Nat) : Nat :=
  if d < 2147483648 then d else U32 - d

/-- The deviation `abs((int32_t)(check_baudrate-baudrate))` used for both
`first_diff` and `second_diff`. -/
def u32diff (c b : Nat) : Nat :=
  absI32 (sub32 c b)

/-- The adjacent candidate probed by `calc_uart_UBRRn`: `temp++` when the
first candidate overshot the target, `temp--` otherwise, in `uint16_t`
arithmetic. -/
def uartAdjTemp (fcpu b p t : Nat) : Nat :=
  if b < uartCheck fcpu p t then (t + 1) % U16 else (t + (U16 - 1)) % U16

/-- The `UART_ERR_CALC(baudrate)` margin:
`baudrate * (uint32_t)(UART_MAX_ERR_RATE*10) / 1000` with
`UART_MAX_ERR_RATE = 2.5`, i.e. `baudrate * 25 / 1000` in `uint32_t`
arithmetic (`UART_CALC_USE_ERROR_CHECK` is defined in the header, so the
error-margin code is compiled in). -/
def uartMargin (b : Nat) : Nat :=
  (b * 25) % U32 / 1000

/-- Embedding of `calc_uart_UBRRn(uint32_t baudrate, bool is_U2X_set)`
with `UART_CALC_USE_ERROR_CHECK` enabled, as in the header.  The
branches appear in source order: zero-baudrate check, 12-bit range check
on the first candidate, exact-match early return, candidate comparison
(`first_diff < second_diff` keeps the first candidate, otherwise the
adjacent one is kept), and the error-margin check on the kept
candidate's deviation. -/
def calc_uart_UBRRn (fcpu baudrate : Nat) (is_U2X_set : Bool) : Int :=
  if baudrate = 0 then -1
  else if 4095 < uartTemp0 fcpu baudrate (uartPresc is_U2X_set) then -1
  else if uartCheck fcpu (uartPresc is_U2X_set) (uartTemp0 fcpu baudrate (uartPresc is_U2X_set)) = baudrate then
    toInt16 (uartTemp0 fcpu baudrate (uartPresc is_U2X_set))
  else if u32diff (uartCheck fcpu (uartPresc is_U2X_set) (uartTemp0 fcpu baudrate (uartPresc is_U2X_set))) baudrate <
          u32diff (uartCheck fcpu (uartPresc is_U2X_set)
            (uartAdjTemp fcpu baudrate (uartPresc is_U2X_set) (uartTemp0 fcpu baudrate (uartPresc is_U2X_set)))) baudrate then
    (if uartMargin baudrate <
        u32diff (uartCheck fcpu (uartPresc is_U2X_set) (uartTemp0 fcpu baudrate (uartPresc is_U2X_set))) baudrate then -1
     else toInt16 (uartTemp0 fcpu baudrate (uartPresc is_U2X_set)))
  else
    (if uartMargin baudrate <
        u32diff (uartCheck fcpu (uartPresc is_U2X_set)
          (uartAdjTemp fcpu baudrate (uartPresc is_U2X_set) (uartTemp0 fcpu baudrate (uartPresc is_U2X_set)))) baudrate then -1
     else toInt16 (uartAdjTemp fcpu baudrate (uartPresc is_U2X_set) (uartTemp0 fcpu baudrate (uartPresc is_U2X_set))))

/-- Embedding of `round_near_mul_wovf(uint8_t x, uint8_t y)`: the
`uint16_t` intermediate `temp` never wraps for `x, y < 256`, the
overflow branch recomputes `temp/y*y` from the overflowed intermediate,
and the final `(uint8_t)` cast truncates modulo 256. -/
def round_near_mul_wovf (x y : Nat) : Nat :=
  if y = 0 then 0
  else
    (if 255 < (x + y / 2) - (x + y / 2) % y
     then ((x + y / 2) - (x + y / 2) % y) / y * y
     else (x + y / 2) - (x + y / 2) % y) % 256

/-- Embedding of `round_near_mul_wsat(uint8_t x, uint8_t y)`: identical
to `round_near_mul_wovf` except that the overflow branch recomputes
`x/y*y` from the original `x`. -/
def round_near_mul_wsat (x y : Nat) : Nat :=
  if y = 0 then 0
  else
    (if 255 < (x + y / 2) - (x + y / 2) % y
     then x / y * y
     else (x + y / 2) - (x + y / 2) % y) % 256

/-- Case analysis on the recognized timer identifiers: the switch yields
one of two subranges, with `timer_max` 255 or 65535. -/
lemma timerParams_cases (tid ps pe mx : Nat) (h : timerParams tid = some (ps, pe, mx)) :
    (ps = 0 ∧ pe = 5 ∧ (mx = 255 ∨ mx = 65535)) ∨ (ps = 5 ∧ pe = 12 ∧ mx = 255) := by
  unfold timerParams at h
  split_ifs at h <;> simp_all

/-- When every index the loop can reach fails the `val ≤ timer_max` test,
the do-while runs out of fuel and stops at the last index of the
subrange. -/
lemma prescLoopAux_none (temp mx : Nat) :
    ∀ fuel counter, (∀ j, counter ≤ j → j ≤ counter + fuel → mx < prescRawVal temp j) →
    prescLoopAux temp mx fuel counter = (prescRawVal temp (counter + fuel), counter + fuel + 1) := by
  intro fuel
  induction fuel with
  | zero => intro counter _; simp [prescLoopAux]
  | succ n ih =>
    intro counter h
    have hc : mx < prescRawVal temp counter := h counter le_rfl (by omega)
    have hrec := ih (counter + 1) (fun j h1 h2 => h j (by omega) (by omega))
    simp only [prescLoopAux, if_pos hc, hrec]
    have e1 : counter + 1 + n = counter + (n + 1) := by omega
    rw [e1]

/-- When `i` is the first index at or after `counter` whose candidate
tick value passes the `val ≤ timer_max` test, the do-while stops there
with `counter` post-incremented to `i + 1`. -/
lemma prescLoopAux_first (temp mx : Nat) :
    ∀ fuel counter i, counter ≤ i → i ≤ counter + fuel → prescRawVal temp i ≤ mx →
    (∀ j, counter ≤ j → j < i → mx < prescRawVal temp j) →
    prescLoopAux temp mx fuel counter = (prescRawVal temp i, i + 1) := by
  intro fuel
  induction fuel with
  | zero =>
    intro counter i h1 h2 _ _
    have e : i = counter := by omega
    subst e
    simp [prescLoopAux]
  | succ n ih =>
    intro counter i h1 h2 h3 h4
    by_cases hc : i = counter
    · subst hc
      simp only [prescLoopAux]
      rw [if_neg (Nat.not_lt.mpr h3)]
    · have hlt : mx < prescRawVal temp counter := h4 counter le_rfl (by omega)
      simp only [prescLoopAux, if_pos hlt]
      exact ih (counter + 1) i (by omega) (by omega) h3 (fun j ha hb => h4 j (by omega) hb)

/-- Success characterization of `calc_presc_CSbits`: if `i` is the first
qualifying index of the subrange, the function writes `prescVal i` and
returns the post-incremented counter offset `i - ps + 1`. -/
lemma calc_presc_success (fcpu freq tid ps pe mx i : Nat)
    (h0 : 0 < freq) (h : timerParams tid = some (ps, pe, mx))
    (hi : i < pe) (hips : ps ≤ i) (hq : prescVal fcpu freq i ≤ mx)
    (hf : ∀ j, j < i → ps ≤ j → mx < prescVal fcpu freq j) :
    calc_presc_CSbits fcpu freq tid = (Int.ofNat (i - ps + 1), some (prescVal fcpu freq i)) := by
  have hcase := timerParams_cases tid ps pe mx h
  have hmx : mx < 65536 := by omega
  simp only [prescVal] at hq hf ⊢
  have hloop : prescLoopAux (fcpu / freq) mx (pe - ps - 1) ps = (prescRawVal (fcpu / freq) i, i + 1) :=
    prescLoopAux_first (fcpu / freq) mx (pe - ps - 1) ps i hips (by omega) hq
      (fun j hj1 hj2 => hf j hj2 hj1)
  unfold calc_presc_CSbits
  rw [if_neg (by omega : ¬ freq = 0), h]
  simp only [calcPrescCore, hloop]
  rw [if_neg (Nat.not_lt.mpr hq), if_neg (by omega : ¬ i + 1 = 0)]
  have e1 : i + 1 - ps = i - ps + 1 := by omega
  have e2 : prescRawVal (fcpu / freq) i % U16 = prescRawVal (fcpu / freq) i :=
    Nat.mod_eq_of_lt (lt_of_le_of_lt hq (by unfold U16; omega))
  rw [e1, e2]

/-- Failure characterization of `calc_presc_CSbits`: if no index of the
subrange qualifies, the function returns `-1` without writing. -/
lemma calc_presc_fail (fcpu freq tid ps pe mx : Nat)
    (h0 : 0 < freq) (h : timerParams tid = some (ps, pe, mx))
    (hall : ∀ i, i < pe → ps ≤ i → mx < prescVal fcpu freq i) :
    calc_presc_CSbits fcpu freq tid = (-1, none) := by
  have hcase := timerParams_cases tid ps pe mx h
  have hps : ps < pe := by omega
  simp only [prescVal] at hall
  have hloop := prescLoopAux_none (fcpu / freq) mx (pe - ps - 1) ps
      (fun j h1 h2 => hall j (by omega) h1)
  unfold calc_presc_CSbits
  rw [if_neg (by omega : ¬ freq = 0), h]
  simp only [calcPrescCore, hloop]
  rw [if_pos (hall (ps + (pe - ps - 1)) (by omega) (by omega))]

/-- C6: for every nonzero `freq` and recognized `timer_id`,
`calc_presc_CSbits` scans the timer's prescaler subrange in table order
from its start: if no index of the subrange has a candidate tick value
(the `uint32_t` value of `(F_CPU/freq)/prescalers[i] - 1`) within the
counter maximum, it returns `-1` without writing; if `i` is the first
index whose candidate is within the maximum, it writes exactly that
candidate through `timer_ticks`; and every value it ever writes is at
most the counter maximum. -/
theorem calc_presc_CSbits_first_fit (fcpu freq tid ps pe mx : Nat)
    (h1 : 0 < freq) (h2 : freq < U32) (h3 : fcpu < U32)
    (h : timerParams tid = some (ps, pe, mx)) :
    ((∀ i, i < pe → ps ≤ i → mx < prescVal fcpu freq i) →
        calc_presc_CSbits fcpu freq tid = (-1, none)) ∧
    (∀ i, i < pe → ps ≤ i → prescVal fcpu freq i ≤ mx →
        (∀ j, j < i → ps ≤ j → mx < prescVal fcpu freq j) →
        calc_presc_CSbits fcpu freq tid = (Int.ofNat (i - ps + 1), some (prescVal fcpu freq i))) ∧
    (∀ r t, calc_presc_CSbits fcpu freq tid = (r, some t) → t ≤ mx) := by
  refine ⟨fun hall => calc_presc_fail fcpu freq tid ps pe mx h1 h hall,
    fun i hi hips hq hf => calc_presc_success fcpu freq tid ps pe mx i h1 h hi hips hq hf, ?_⟩
  intro r t hrt
  unfold calc_presc_CSbits at hrt
  rw [if_neg (by omega : ¬ freq = 0), h] at hrt
  simp only [calcPrescCore] at hrt
  by_cases hc : mx < (prescLoopAux (fcpu / freq) mx (pe - ps - 1) ps).1
  · rw [if_pos hc] at hrt
    simp at hrt
  · rw [if_neg hc] at hrt
    have h2nd : (prescLoopAux (fcpu / freq) mx (pe - ps - 1) ps).1 % U16 = t := by
      have := congrArg Prod.snd hrt
      simpa using this
    have hle : t ≤ (prescLoopAux (fcpu / freq) mx (pe - ps - 1) ps).1 :=
      h2nd ▸ Nat.mod_le _ _
    omega

/-- Witness for C6: at `F_CPU = 16 MHz`, `freq = 100 Hz`, timer 0, the
first qualifying index is 4 (divisor 1024), and the written tick value
is `prescVal 16000000 100 4 = 155 ≤ 255`. -/
theorem calc_presc_CSbits_first_fit_witness :
    calc_presc_CSbits 16000000 100 0 = (5, some 155) ∧
    prescVal 16000000 100 4 = 155 ∧ (155 : Nat) ≤ 255 := by
  refine ⟨?_, by decide, by decide⟩
  have hmain := (calc_presc_CSbits_first_fit 16000000 100 0 0 5 255 (by decide) (by decide)
      (by decide) (by decide)).2.1 4 (by decide) (by decide) (by decide) (by decide)
  exact hmain.trans (by decide)

/-- C1 counterexample: at `F_CPU = 16 MHz`, `freq = 1 MHz`, timer 0, the
very first index of the subrange (index 0, divisor 1) qualifies, so the
selected index minus the subrange start is 0; yet the function returns
1, refuting the claim that the return value is the zero-based offset. -/
theorem calc_presc_CSbits_offset_cex :
    prescVal 16000000 1000000 0 ≤ 255 ∧
    calc_presc_CSbits 16000000 1000000 0 = (1, some (prescVal 16000000 1000000 0)) ∧
    (calc_presc_CSbits 16000000 1000000 0).1 ≠ Int.ofNat (0 - 0) := by decide

/-- C1 (amended): on success the return value of `calc_presc_CSbits` is
the ONE-based position of the selected prescaler within the timer's
subrange, i.e. `selected_index - subrange_start + 1`, because the
source's `counter` is post-incremented before `counter-prescaler_start`
is returned. -/
theorem calc_presc_CSbits_one_based (fcpu freq tid ps pe mx i : Nat)
    (h1 : 0 < freq) (h2 : freq < U32) (h3 : fcpu < U32)
    (h : timerParams tid = some (ps, pe, mx))
    (hi : i < pe) (hips : ps ≤ i) (hq : prescVal fcpu freq i ≤ mx)
    (hf : ∀ j, j < i → ps ≤ j → mx < prescVal fcpu freq j) :
    (calc_presc_CSbits fcpu freq tid).1 = Int.ofNat (i - ps) + 1 := by
  rw [calc_presc_success fcpu freq tid ps pe mx i h1 h hi hips hq hf]
  show Int.ofNat (i - ps + 1) = Int.ofNat (i - ps) + 1
  simp only [Int.ofNat_eq_natCast]
  omega

/-- Witness for the amended C1: at `F_CPU = 16 MHz`, `freq = 1 MHz`,
timer 0, index 0 is selected and the function returns `0 - 0 + 1 = 1`. -/
theorem calc_presc_CSbits_one_based_witness :
    (calc_presc_CSbits 16000000 1000000 0).1 = Int.ofNat (0 - 0) + 1 :=
  calc_presc_CSbits_one_based 16000000 1000000 0 0 5 255 0 (by decide) (by decide) (by decide)
    (by decide) (by decide) (by decide) (by decide) (by decide)

/-- C9: invalid arguments are signaled by the sentinel `-1`:
`calc_presc_CSbits` returns `-1` (and writes nothing) whenever
`freq = 0` or the timer id is not one of the six recognized identifiers
`AVR_TIMER0..AVR_TIMER5` (values 0..5), and `calc_uart_UBRRn` returns
`-1` whenever `baudrate = 0`. -/
theorem invalid_args_sentinel (fcpu freq tid : Nat) (u : Bool) :
    calc_presc_CSbits fcpu 0 tid = (-1, none) ∧
    (5 < tid → calc_presc_CSbits fcpu freq tid = (-1, none)) ∧
    calc_uart_UBRRn fcpu 0 u = -1 := by
  refine ⟨by unfold calc_presc_CSbits; rw [if_pos rfl], fun ht => ?_,
    by unfold calc_uart_UBRRn; rw [if_pos rfl]⟩
  have hnone : timerParams tid = none := by
    unfold timerParams
    rw [if_neg (by omega), if_neg (by omega), if_neg (by omega)]
  unfold calc_presc_CSbits
  by_cases hf : freq = 0
  · rw [if_pos hf]
  · rw [if_neg hf, hnone]

/-- Witness for C9: timer id 6 is unrecognized, so the call fails with
`-1` even for a nonzero frequency. -/
theorem invalid_args_sentinel_witness :
    calc_presc_CSbits 16000000 5 6 = (-1, none) :=
  (invalid_args_sentinel 16000000 5 6 true).2.1 (by decide)

/-- C10: whenever `calc_presc_CSbits` returns `-1` (zero frequency,
unrecognized timer id, or no qualifying prescaler), it does not write
through the `timer_ticks` pointer (modelled by the `none` effect). -/
theorem calc_presc_CSbits_no_write_on_error (fcpu freq tid : Nat)
    (h : (calc_presc_CSbits fcpu freq tid).1 = -1) :
    (calc_presc_CSbits fcpu freq tid).2 = none := by
  unfold calc_presc_CSbits at h ⊢
  by_cases hf : freq = 0
  · rw [if_pos hf]
  · rw [if_neg hf] at h ⊢
    cases htp : timerParams tid with
    | none => rfl
    | some v =>
      obtain ⟨ps, pe, mx⟩ := v
      rw [htp] at h
      simp only [calcPrescCore] at h ⊢
      by_cases hc : mx < (prescLoopAux (fcpu / freq) mx (pe - ps - 1) ps).1
      · rw [if_pos hc]
      · rw [if_neg hc] at h ⊢
        exfalso
        simp only [Int.ofNat_eq_natCast] at h
        omega

/-- Witness for C10: with `freq = 0` the function returns `-1` and the
out parameter is untouched. -/
theorem calc_presc_CSbits_no_write_on_error_witness :
    (calc_presc_CSbits 16000000 0 0).1 = -1 ∧ (calc_presc_CSbits 16000000 0 0).2 = none :=
  ⟨by decide, calc_presc_CSbits_no_write_on_error 16000000 0 0 (by decide)⟩

/-- C2 counterexample: at `x = 255`, `y = 10` the half-up intermediate is
`260 > 255`, and the function returns `260 % 256 = 4` — not 0 and not a
multiple of 10 — refuting the claimed congruence to 0 modulo `y` and the
claimed example value `round_near_mul_wovf(255, 10) == 0`. -/
theorem round_near_mul_wovf_cex :
    255 < (255 + 10 / 2) - (255 + 10 / 2) % 10 ∧
    round_near_mul_wovf 255 10 = 4 ∧
    round_near_mul_wovf 255 10 ≠ 0 ∧
    round_near_mul_wovf 255 10 % 10 ≠ 0 := by decide

/-- C2 (amended): for `y > 0` and a half-up intermediate
`t = (x + y/2) - ((x + y/2) mod y)` exceeding 255, the overflow branch
is a no-op (`t` is already a multiple of `y`), so `round_near_mul_wovf`
returns the 8-bit truncation of `(t/y)*y = t`; the result is congruent
to `-256` modulo `y` (so to 0 only when `y` divides 256), and in
particular `round_near_mul_wovf 255 10 = 4`, not 0. -/
theorem round_near_mul_wovf_overflow (x y : Nat) (hx : x < 256) (hy : 0 < y) (hy2 : y < 256)
    (hov : 255 < (x + y / 2) - (x + y / 2) % y) :
    round_near_mul_wovf x y = ((x + y / 2) - (x + y / 2) % y) / y * y % 256 ∧
    (round_near_mul_wovf x y + 256) % y = 0 := by
  have hmod : (x + y / 2) % y < y := Nat.mod_lt _ hy
  have hdm := Nat.div_add_mod (x + y / 2) y
  have hhalf : y / 2 ≤ 127 := by omega
  have h1 : round_near_mul_wovf x y = ((x + y / 2) - (x + y / 2) % y) / y * y % 256 := by
    unfold round_near_mul_wovf
    rw [if_neg (by omega : ¬ y = 0), if_pos hov]
  have hty : (x + y / 2) - (x + y / 2) % y = y * ((x + y / 2) / y) := by omega
  have hdiv : ((x + y / 2) - (x + y / 2) % y) / y * y = (x + y / 2) - (x + y / 2) % y := by
    rw [hty, Nat.mul_div_cancel_left _ hy, Nat.mul_comm]
  have hz : ((x + y / 2) - (x + y / 2) % y) % y = 0 := by
    rw [hty]; exact Nat.mul_mod_right _ _
  refine ⟨h1, ?_⟩
  rw [h1, hdiv]
  have hub : (x + y / 2) - (x + y / 2) % y ≤ 382 := by omega
  have h256 : ((x + y / 2) - (x + y / 2) % y) % 256 = ((x + y / 2) - (x + y / 2) % y) - 256 := by
    omega
  rw [h256]
  have he : ((x + y / 2) - (x + y / 2) % y) - 256 + 256 = (x + y / 2) - (x + y / 2) % y := by
    omega
  rw [he, hz]

/-- Witness for the amended C2: at `x = 255`, `y = 10` the overflow case
applies and the theorem yields `round_near_mul_wovf 255 10 = 260 / 10 *
10 % 256`, which evaluates to 4. -/
theorem round_near_mul_wovf_overflow_witness :
    round_near_mul_wovf 255 10 = ((255 + 10 / 2) - (255 + 10 / 2) % 10) / 10 * 10 % 256 ∧
    round_near_mul_wovf 255 10 = 4 :=
  ⟨(round_near_mul_wovf_overflow 255 10 (by decide) (by decide) (by decide) (by decide)).1,
   by decide⟩

/-- C5: for `y > 0` and a half-up intermediate exceeding 255,
`round_near_mul_wsat` recomputes its result from the original `x` as
`(x / y) * y`, the largest multiple of `y` not exceeding `x`. -/
theorem round_near_mul_wsat_overflow (x y : Nat) (hx : x < 256) (hy : 0 < y) (hy2 : y < 256)
    (hov : 255 < (x + y / 2) - (x + y / 2) % y) :
    round_near_mul_wsat x y = x / y * y := by
  unfold round_near_mul_wsat
  rw [if_neg (by omega : ¬ y = 0), if_pos hov]
  exact Nat.mod_eq_of_lt (lt_of_le_of_lt (Nat.div_mul_le_self x y) hx)

/-- Witness for C5: at `x = 255`, `y = 10` the overflow case applies and
`round_near_mul_wsat 255 10 = 255 / 10 * 10 = 250`. -/
theorem round_near_mul_wsat_overflow_witness :
    round_near_mul_wsat 255 10 = 255 / 10 * 10 ∧ round_near_mul_wsat 255 10 = 250 :=
  ⟨round_near_mul_wsat_overflow 255 10 (by decide) (by decide) (by decide) (by decide),
   by decide⟩

/-- C7: for `y > 0` and no overflow (`x + y/2 < 256`), the two rounding
functions agree and both return the half-up-rounded multiple of `y`,
namely `((x + y/2) / y) * y`. -/
theorem round_no_overflow_agree (x y : Nat) (hy : 0 < y) (hy2 : y < 256) (hno : x + y / 2 < 256) :
    round_near_mul_wovf x y = round_near_mul_wsat x y ∧
    round_near_mul_wovf x y = (x + y / 2) / y * y := by
  have hmod : (x + y / 2) % y ≤ x + y / 2 := Nat.mod_le _ _
  have hnov : ¬ 255 < (x + y / 2) - (x + y / 2) % y := by omega
  have hdm := Nat.div_add_mod (x + y / 2) y
  have hty : (x + y / 2) - (x + y / 2) % y = y * ((x + y / 2) / y) := by omega
  have hy0 : ¬ y = 0 := by omega
  unfold round_near_mul_wovf round_near_mul_wsat
  rw [if_neg hy0, if_neg hy0, if_neg hnov, if_neg hnov]
  refine ⟨rfl, ?_⟩
  rw [Nat.mod_eq_of_lt (by omega), hty]
  exact Nat.mul_comm _ _

/-- Witness for C7: at `x = 7`, `y = 3` there is no overflow and both
functions return `(7 + 1) / 3 * 3 = 6`. -/
theorem round_no_overflow_agree_witness :
    round_near_mul_wovf 7 3 = round_near_mul_wsat 7 3 ∧
    round_near_mul_wovf 7 3 = (7 + 3 / 2) / 3 * 3 ∧
    round_near_mul_wovf 7 3 = 6 :=
  ⟨(round_no_overflow_agree 7 3 (by decide) (by decide) (by decide)).1,
   (round_no_overflow_agree 7 3 (by decide) (by decide) (by decide)).2,
   by decide⟩

/-- C8: a zero divisor yields the defined degenerate result 0 from both
rounding functions, for every `x`. -/
theorem round_zero_divisor (x : Nat) :
    round_near_mul_wovf x 0 = 0 ∧ round_near_mul_wsat x 0 = 0 := by
  unfold round_near_mul_wovf round_near_mul_wsat
  exact ⟨rfl, rfl⟩

/-- C3 counterexample: at `F_CPU = 483184`, `baudrate = 300`, normal
speed, the initial candidate is 99 with actual baud 301 (no exact
match), the adjacent candidate is 100, both deviations equal 1 (a tie),
and the function returns 100 — the adjacent candidate — refuting the
claim that a tie keeps the original candidate 99. -/
theorem calc_uart_UBRRn_tie_cex :
    uartTemp0 483184 300 (uartPresc false) = 99 ∧
    uartCheck 483184 (uartPresc false) 99 ≠ 300 ∧
    u32diff (uartCheck 483184 (uartPresc false) 99) 300 =
      u32diff (uartCheck 483184 (uartPresc false) (uartAdjTemp 483184 300 (uartPresc false) 99)) 300 ∧
    uartAdjTemp 483184 300 (uartPresc false) 99 = 100 ∧
    calc_uart_UBRRn 483184 300 false = 100 ∧
    calc_uart_UBRRn 483184 300 false ≠ toInt16 99 := by decide

/-- C3 (amended): when the initial candidate's actual baud rate does not
match the target exactly and the adjacent candidate's absolute deviation
equals the initial candidate's (a tie), the function keeps the ADJACENT
candidate (the `first_diff < second_diff` test is false on a tie), and
returns it when its deviation is within the error margin. -/
theorem calc_uart_UBRRn_tie_adjacent (fcpu b : Nat) (u : Bool)
    (hb : 0 < b) (hb2 : b < U32)
    (ht : uartTemp0 fcpu b (uartPresc u) ≤ 4095)
    (hne : uartCheck fcpu (uartPresc u) (uartTemp0 fcpu b (uartPresc u)) ≠ b)
    (htie : u32diff (uartCheck fcpu (uartPresc u) (uartTemp0 fcpu b (uartPresc u))) b =
        u32diff (uartCheck fcpu (uartPresc u)
          (uartAdjTemp fcpu b (uartPresc u) (uartTemp0 fcpu b (uartPresc u)))) b)
    (hmargin : u32diff (uartCheck fcpu (uartPresc u)
        (uartAdjTemp fcpu b (uartPresc u) (uartTemp0 fcpu b (uartPresc u)))) b ≤ uartMargin b) :
    calc_uart_UBRRn fcpu b u =
      toInt16 (uartAdjTemp fcpu b (uartPresc u) (uartTemp0 fcpu b (uartPresc u))) := by
  unfold calc_uart_UBRRn
  rw [if_neg (by omega : ¬ b = 0),
    if_neg (by omega : ¬ 4095 < uartTemp0 fcpu b (uartPresc u)),
    if_neg hne, if_neg (by omega), if_neg (by omega)]

/-- Witness for the amended C3: the tie at `F_CPU = 483184`,
`baudrate = 300` is within the 2.5% margin, so the adjacent candidate
100 is returned. -/
theorem calc_uart_UBRRn_tie_adjacent_witness :
    calc_uart_UBRRn 483184 300 false =
      toInt16 (uartAdjTemp 483184 300 (uartPresc false) (uartTemp0 483184 300 (uartPresc false))) ∧
    calc_uart_UBRRn 483184 300 false = 100 :=
  ⟨calc_uart_UBRRn_tie_adjacent 483184 300 false (by decide) (by decide) (by decide) (by decide)
      (by decide) (by decide),
   by decide⟩

/-- C4: evaluation at the failing input. At `F_CPU = 268566528`,
`baudrate = 4097`, normal speed, the initial candidate divisor is 4095
(which passes the `temp > 4095` range check), its actual baud 4098
overshoots, the adjacent candidate 4096 ties at deviation 1 (within the
margin 102) and is returned: the function yields 4096, a divisor outside
the 12-bit range [0, 4095] promised on success, and distinct from the
error sentinel `-1`. -/
theorem calc_uart_UBRRn_range_bug :
    calc_uart_UBRRn 268566528 4097 false = 4096 ∧
    (4095 : Int) < calc_uart_UBRRn 268566528 4097 false ∧
    calc_uart_UBRRn 268566528 4097 false ≠ -1 := by decide
